import Mathlib

/-!
Shallow embedding of the user health-data HTTP service (Express/Node, file
index.js, current revision: the variant that guards the name field and
returns from every response branch).  Request bodies and stored records are
JSON objects, modelled as ordered association lists of string keys and JSON
scalar values; the route handlers become pure functions from the directory
state and the request to a response and the new state.
-/

set_option autoImplicit false

namespace HealthApi

/-- JSON scalar value as it can occur in a parsed request body or in the
seeded record: number, string, boolean or null.  (JSON cannot carry NaN or
undefined; an absent field is `Option.none` at the object level.)  Numbers
are modelled as integers: the service only ever compares them for strict
equality, never does arithmetic on them. -/
inductive Value where
  | vNum (n : Int)
  | vStr (s : String)
  | vBool (b : Bool)
  | vNull
deriving DecidableEq

/-- A JavaScript object as the body parser and the in-memory database hold
it: an ordered list of key/value pairs (JS objects cannot have duplicate
keys; lemmas that need that fact take a `Nodup` hypothesis). -/
abbrev Obj : Type := List (String × Value)

/-- Reading a property: the value at the first occurrence of the key, or
none (undefined) when the key is absent. -/
def getField (o : Obj) (k : String) : Option Value :=
  (o.find? (fun p => p.1 == k)).map Prod.snd

/-- Property assignment target[k] = v: overwrite the value at the first
occurrence of the key, keeping its position, or append the pair when the
key is absent (JS property-order semantics). -/
def setField : Obj → String → Value → Obj
  | [], k, v => [(k, v)]
  | (k1, v1) :: rest, k, v =>
      if k1 = k then (k1, v) :: rest else (k1, v1) :: setField rest k v

/-- Object.assign(target, source): copy every key of the source, in order,
into the target, overwriting existing keys. -/
def assign (target src : Obj) : Obj :=
  src.foldl (fun t p => setField t p.1 p.2) target

/-- JS truthiness of a scalar value: 0, the empty string, false and null
are falsy. -/
def truthy : Value → Bool
  | .vNum n => n != 0
  | .vStr s => !s.isEmpty
  | .vBool b => b
  | .vNull => false

/-- JS strict equality on scalar values: equal only when of the same type
with the same content. -/
def strictEq : Value → Value → Bool
  | .vNum a, .vNum b => a == b
  | .vStr a, .vStr b => a == b
  | .vBool a, .vBool b => a == b
  | .vNull, .vNull => true
  | _, _ => false

/-- JS strict equality lifted to possibly-undefined values: undefined
equals only undefined. -/
def strictEqOpt : Option Value → Option Value → Bool
  | none, none => true
  | some a, some b => strictEq a b
  | _, _ => false

/-- Embeds parseInt(s) on a path segment: skip leading whitespace, accept
an optional sign, read the leading run of decimal digits; no digit gives
NaN, modelled as none.  (The radix auto-detection of bare parseInt for 0x
prefixes is not modelled; the routes only receive decimal ids.) -/
def leadingDigits (cs : List Char) : Option Nat :=
  let ds := cs.takeWhile Char.isDigit
  if ds.isEmpty then none
  else some (ds.foldl (fun a c => a * 10 + (c.toNat - 48)) 0)

/-- Embeds const userId = parseInt(req.params.id): none is the NaN
sentinel. -/
def parseIntJS (s : String) : Option Int :=
  match s.data.dropWhile Char.isWhitespace with
  | '-' :: rest => (leadingDigits rest).map (fun n => -(n : Int))
  | '+' :: rest => (leadingDigits rest).map (fun n => (n : Int))
  | cs => (leadingDigits cs).map (fun n => (n : Int))

/-- Embeds the predicate of healthData.users.find((u) => u.id === userId):
strict equality between the possibly-absent id property and the parsed
number.  NaN (none) and an absent id property match nothing. -/
def idMatches (u : Obj) (userId : Option Int) : Bool :=
  match getField u "id", userId with
  | some v, some n => strictEq v (Value.vNum n)
  | _, _ => false

/-- What a handler sends back: an HTTP status and a JSON body, either a
single object or the array of users. -/
inductive ResBody where
  | jsonObj (o : Obj)
  | jsonList (l : List Obj)
deriving DecidableEq

structure Response where
  status : Nat
  body : ResBody
deriving DecidableEq

/-- Body of res.json with an error message, as in
res.status(404).json(. error: "User not found" .). -/
def errBody (msg : String) : ResBody :=
  ResBody.jsonObj [("error", Value.vStr msg)]

/-- The seeded record of healthData.users. -/
def johnDoe : Obj :=
  [("id", Value.vNum 1), ("name", Value.vStr "John Doe"),
   ("age", Value.vNum 30), ("weight", Value.vNum 75),
   ("height", Value.vNum 180)]

/-- healthData.users at process start: the one seeded record. -/
def initialUsers : List Obj := [johnDoe]

/-- Embeds app.get on /users: return res.send(healthData.users) — the whole
ordered list, status 200, no mutation of the directory. -/
def listUsers (users : List Obj) : Response :=
  ⟨200, ResBody.jsonList users⟩

/-- Embeds app.get on /users/:id: parse the path id, scan for the first
record whose id strictly equals it; 404 error if absent, otherwise the
record with status 200. -/
def getUserById (users : List Obj) (idStr : String) : Response :=
  match users.find? (fun u => idMatches u (parseIntJS idStr)) with
  | none => ⟨404, errBody "User not found"⟩
  | some u => ⟨200, ResBody.jsonObj u⟩

/-- Trace of the responses the get-by-id handler sends over one request.
Both branches of the source return immediately after their send, so each
branch of the embedding emits a one-element trace. -/
def getUserByIdTrace (users : List Obj) (idStr : String) : List Response :=
  match users.find? (fun u => idMatches u (parseIntJS idStr)) with
  | none => [⟨404, errBody "User not found"⟩]
  | some u => [⟨200, ResBody.jsonObj u⟩]

/-- Embeds app.post on /users: push the request body onto the list as-is
and echo it back with status 201.  No validation of any kind. -/
def postUser (users : List Obj) (body : Obj) : Response × List Obj :=
  (⟨201, ResBody.jsonObj body⟩, users ++ [body])

/-- Embeds the guard updatedUser.name && updatedUser.name !== user.name of
the put handler: true when the body carries a truthy name value that is not
strictly equal to the stored name property. -/
def nameViolation (user body : Obj) : Bool :=
  match getField body "name" with
  | none => false
  | some v => truthy v && !strictEqOpt (some v) (getField user "name")

/-- Replace the first element satisfying the predicate by its image under
f, leaving everything else in place: the in-place mutation of the found
record seen from the directory. -/
def updateFirst (users : List Obj) (p : Obj → Bool) (f : Obj → Obj) : List Obj :=
  match users with
  | [] => []
  | u :: rest => if p u then f u :: rest else u :: updateFirst rest p f

/-- Embeds app.put on /users/:id: find the record by parsed path id (404
error when absent), reject a truthy changed name with a 400 error, else
Object.assign the body into the found record in place and send the mutated
record with status 200.  Returns the response together with the directory
after the request. -/
def putUser (users : List Obj) (idStr : String) (body : Obj) :
    Response × List Obj :=
  match users.find? (fun u => idMatches u (parseIntJS idStr)) with
  | none => (⟨404, errBody "User not found"⟩, users)
  | some user =>
      if nameViolation user body then
        (⟨400, errBody "User name cannot be changed"⟩, users)
      else
        (⟨200, ResBody.jsonObj (assign user body)⟩,
         updateFirst users (fun u => idMatches u (parseIntJS idStr))
           (fun u => assign u body))

/-! Helper lemmas about the object and directory operations. -/

theorem strictEq_refl (v : Value) : strictEq v v = true := by
  cases v <;> simp [strictEq]

theorem getField_nil (k : String) : getField [] k = none := rfl

theorem getField_cons (k1 : String) (v1 : Value) (rest : Obj) (k : String) :
    getField ((k1, v1) :: rest) k =
      if k1 = k then some v1 else getField rest k := by
  by_cases hk : k1 = k
  · simp only [if_pos hk, getField]
    rw [List.find?_cons_of_pos _ (by simp [hk])]
    rfl
  · simp only [if_neg hk, getField]
    rw [List.find?_cons_of_neg _ (by simp [hk])]

theorem getField_setField_self (o : Obj) (k : String) (v : Value) :
    getField (setField o k v) k = some v := by
  induction o with
  | nil => simp [setField, getField_cons, getField_nil]
  | cons p rest ih =>
      obtain ⟨k1, v1⟩ := p
      by_cases hk : k1 = k
      · simp [setField, if_pos hk, getField_cons, hk]
      · simp [setField, if_neg hk, getField_cons, hk, ih]

theorem getField_setField_ne (o : Obj) (k k' : String) (v : Value)
    (h : k' ≠ k) : getField (setField o k v) k' = getField o k' := by
  induction o with
  | nil => simp [setField, getField_cons, getField_nil, Ne.symm h]
  | cons p rest ih =>
      obtain ⟨k1, v1⟩ := p
      by_cases hk : k1 = k
      · subst hk
        simp [setField, getField_cons, Ne.symm h]
      · simp [setField, if_neg hk, getField_cons, ih]

theorem getField_eq_none_iff (o : Obj) (k : String) :
    getField o k = none ↔ k ∉ o.map Prod.fst := by
  induction o with
  | nil => simp [getField_nil]
  | cons p rest ih =>
      obtain ⟨k1, v1⟩ := p
      by_cases hk : k1 = k
      · subst hk
        simp [getField_cons]
      · rw [getField_cons, if_neg hk, ih]
        simp only [List.map_cons, List.mem_cons, not_or]
        exact ⟨fun h => ⟨fun h2 => hk h2.symm, h⟩, fun h => h.2⟩

theorem getField_assign_notMem (t s : Obj) (k : String)
    (h : k ∉ s.map Prod.fst) : getField (assign t s) k = getField t k := by
  induction s generalizing t with
  | nil => rfl
  | cons p rest ih =>
      obtain ⟨k1, v1⟩ := p
      simp only [List.map_cons, List.mem_cons, not_or] at h
      have step : assign t ((k1, v1) :: rest)
          = assign (setField t k1 v1) rest := rfl
      rw [step, ih (setField t k1 v1) h.2,
        getField_setField_ne t k1 k v1 h.1]

theorem getField_assign_mem (t s : Obj) (k : String) (v : Value)
    (hnd : (s.map Prod.fst).Nodup) (h : getField s k = some v) :
    getField (assign t s) k = some v := by
  induction s generalizing t with
  | nil => simp [getField_nil] at h
  | cons p rest ih =>
      obtain ⟨k1, v1⟩ := p
      simp only [List.map_cons, List.nodup_cons] at hnd
      have step : assign t ((k1, v1) :: rest)
          = assign (setField t k1 v1) rest := rfl
      by_cases hk : k1 = k
      · subst hk
        have hv : v1 = v := by simpa [getField_cons] using h
        subst hv
        rw [step, getField_assign_notMem _ _ _ hnd.1, getField_setField_self]
      · have h2 : getField rest k = some v := by
          simpa [getField_cons, hk] using h
        rw [step]
        exact ih (setField t k1 v1) hnd.2 h2

theorem getField_assign_none (t s : Obj) (k : String)
    (h : getField s k = none) : getField (assign t s) k = getField t k :=
  getField_assign_notMem t s k ((getField_eq_none_iff s k).mp h)

theorem setField_eq_self (o : Obj) (k : String) (v : Value)
    (h : getField o k = some v) : setField o k v = o := by
  induction o with
  | nil => simp [getField_nil] at h
  | cons p rest ih =>
      obtain ⟨k1, v1⟩ := p
      by_cases hk : k1 = k
      · subst hk
        have hv : v1 = v := by simpa [getField_cons] using h
        subst hv
        simp [setField]
      · have h2 : getField rest k = some v := by
          simpa [getField_cons, hk] using h
        simp [setField, hk, ih h2]

theorem assign_idem (t s : Obj) (hnd : (s.map Prod.fst).Nodup) :
    assign (assign t s) s = assign t s := by
  induction s generalizing t with
  | nil => rfl
  | cons p rest ih =>
      obtain ⟨k1, v1⟩ := p
      simp only [List.map_cons, List.nodup_cons] at hnd
      have step : ∀ x : Obj,
          assign x ((k1, v1) :: rest) = assign (setField x k1 v1) rest :=
        fun _ => rfl
      rw [step, step]
      have hget : getField (assign (setField t k1 v1) rest) k1 = some v1 := by
        rw [getField_assign_notMem _ _ _ hnd.1, getField_setField_self]
      rw [setField_eq_self _ _ _ hget]
      exact ih (setField t k1 v1) hnd.2

theorem find?_decomp {α : Type} (l : List α) (p : α → Bool) (u : α)
    (h : l.find? p = some u) :
    ∃ l1 l2, l = l1 ++ u :: l2 ∧ (∀ x ∈ l1, p x = false) ∧ p u = true := by
  induction l with
  | nil => simp [List.find?] at h
  | cons a rest ih =>
      by_cases ha : p a
      · have hau : a = u := by
          rw [List.find?_cons_of_pos _ ha] at h
          exact Option.some.inj h
        subst hau
        exact ⟨[], rest, rfl, by simp, ha⟩
      · rw [List.find?_cons_of_neg _ ha] at h
        obtain ⟨l1, l2, heq, hl1, hu⟩ := ih h
        refine ⟨a :: l1, l2, by simp [heq], ?_, hu⟩
        intro x hx
        rcases List.mem_cons.mp hx with hx | hx
        · subst hx
          exact Bool.eq_false_iff.mpr ha
        · exact hl1 x hx

theorem find?_of_prefix {α : Type} (l1 l2 : List α) (p : α → Bool) (u : α)
    (hl1 : ∀ x ∈ l1, p x = false) (hu : p u = true) :
    (l1 ++ u :: l2).find? p = some u := by
  induction l1 with
  | nil => simpa [List.cons_append] using List.find?_cons_of_pos l2 hu
  | cons a rest ih =>
      have ha : p a = false := hl1 a (by simp)
      rw [List.cons_append, List.find?_cons_of_neg _ (by simp [ha])]
      exact ih (fun x hx => hl1 x (by simp [hx]))

theorem find?_none_of_all {α : Type} (l : List α) (p : α → Bool)
    (h : ∀ x ∈ l, p x = false) : l.find? p = none := by
  induction l with
  | nil => rfl
  | cons a rest ih =>
      have ha : p a = false := h a (by simp)
      rw [List.find?_cons_of_neg _ (by simp [ha])]
      exact ih (fun x hx => h x (by simp [hx]))

theorem updateFirst_append (l1 l2 : List Obj) (p : Obj → Bool)
    (f : Obj → Obj) (u : Obj) (hl1 : ∀ x ∈ l1, p x = false)
    (hu : p u = true) :
    updateFirst (l1 ++ u :: l2) p f = l1 ++ f u :: l2 := by
  induction l1 with
  | nil => simp [updateFirst, hu]
  | cons a rest ih =>
      have ha : p a = false := hl1 a (by simp)
      simp only [List.cons_append, updateFirst, ha, Bool.false_eq_true,
        if_false, List.cons.injEq, true_and]
      exact ih (fun x hx => hl1 x (by simp [hx]))

theorem filter_one_tail {α : Type} (l1 l2 : List α) (p : α → Bool) (u : α)
    (hu : p u = true)
    (hone : ((l1 ++ u :: l2).filter p).length = 1) :
    (∀ x ∈ l1, p x = false) ∧ (∀ x ∈ l2, p x = false) := by
  rw [List.filter_append, List.filter_cons, if_pos hu,
    List.length_append, List.length_cons] at hone
  have h1 : (l1.filter p).length = 0 ∧ (l2.filter p).length = 0 := by omega
  constructor
  · intro x hx
    have he := List.length_eq_zero.mp h1.1
    by_contra hpx
    have hmem : x ∈ l1.filter p :=
      List.mem_filter.mpr ⟨hx, by simpa using hpx⟩
    rw [he] at hmem
    exact absurd hmem (List.not_mem_nil x)
  · intro x hx
    have he := List.length_eq_zero.mp h1.2
    by_contra hpx
    have hmem : x ∈ l2.filter p :=
      List.mem_filter.mpr ⟨hx, by simpa using hpx⟩
    rw [he] at hmem
    exact absurd hmem (List.not_mem_nil x)

theorem idMatches_nan (u : Obj) : idMatches u none = false := by
  unfold idMatches
  cases getField u "id" <;> rfl

theorem idMatches_congr (a b : Obj) (userId : Option Int)
    (h : getField a "id" = getField b "id") :
    idMatches a userId = idMatches b userId := by
  unfold idMatches
  rw [h]

theorem getUserById_eq_found (users : List Obj) (idStr : String) (u : Obj)
    (h : users.find? (fun x => idMatches x (parseIntJS idStr)) = some u) :
    getUserById users idStr = ⟨200, ResBody.jsonObj u⟩ := by
  unfold getUserById
  rw [h]

theorem getUserById_eq_not_found (users : List Obj) (idStr : String)
    (h : users.find? (fun x => idMatches x (parseIntJS idStr)) = none) :
    getUserById users idStr = ⟨404, errBody "User not found"⟩ := by
  unfold getUserById
  rw [h]

theorem putUser_eq_not_found (users : List Obj) (idStr : String) (body : Obj)
    (h : users.find? (fun x => idMatches x (parseIntJS idStr)) = none) :
    putUser users idStr body = (⟨404, errBody "User not found"⟩, users) := by
  unfold putUser
  rw [h]

theorem putUser_eq_violation (users : List Obj) (idStr : String) (body : Obj)
    (u : Obj)
    (h : users.find? (fun x => idMatches x (parseIntJS idStr)) = some u)
    (hv : nameViolation u body = true) :
    putUser users idStr body
      = (⟨400, errBody "User name cannot be changed"⟩, users) := by
  unfold putUser
  rw [h]
  simp [hv]

theorem putUser_eq_merge (users : List Obj) (idStr : String) (body : Obj)
    (u : Obj)
    (h : users.find? (fun x => idMatches x (parseIntJS idStr)) = some u)
    (hv : nameViolation u body = false) :
    putUser users idStr body
      = (⟨200, ResBody.jsonObj (assign u body)⟩,
         updateFirst users (fun x => idMatches x (parseIntJS idStr))
           (fun x => assign x body)) := by
  unfold putUser
  rw [h]
  simp [hv]

example : parseIntJS "1" = some 1 := by decide
example : parseIntJS "abc" = none := by decide
example : parseIntJS "12abc" = some 12 := by decide
example : parseIntJS "-7" = some (-7) := by decide
example : getUserById initialUsers "1" = ⟨200, ResBody.jsonObj johnDoe⟩ := by
  decide
example : getUserById initialUsers "999" = ⟨404, errBody "User not found"⟩ := by
  decide
example :
    (putUser initialUsers "1" [("age", Value.vNum 31)]).1.status = 200 := by
  decide
example :
    (putUser initialUsers "1" [("name", Value.vStr "Someone Else")]).1.status
      = 400 := by decide
example :
    (putUser initialUsers "1" [("name", Value.vStr "")]).1.status = 200 := by
  decide

/-! Theorems settling the claims. -/

/-- C7: on a fresh start the directory holds exactly the one seeded record
(id 1, name "John Doe", age 30, weight 75, height 180), and listing users
returns that one-element sequence with status 200 without touching the
directory (listUsers takes the state and produces only a response). -/
theorem seed_and_list_users :
    initialUsers.length = 1 ∧
    initialUsers = [[("id", Value.vNum 1), ("name", Value.vStr "John Doe"),
      ("age", Value.vNum 30), ("weight", Value.vNum 75),
      ("height", Value.vNum 180)]] ∧
    listUsers initialUsers = ⟨200, ResBody.jsonList initialUsers⟩ :=
  ⟨rfl, rfl, rfl⟩

/-- C4: create appends the request body verbatim at the end of the
directory with no check of any kind, echoes the same object back with
status 201, and the directory grows by exactly one element with the
existing prefix preserved in order. -/
theorem post_appends_verbatim (users : List Obj) (body : Obj) :
    postUser users body = (⟨201, ResBody.jsonObj body⟩, users ++ [body]) ∧
    (postUser users body).2.length = users.length + 1 ∧
    (postUser users body).2.take users.length = users := by
  refine ⟨rfl, by simp [postUser], ?_⟩
  show (users ++ [body]).take users.length = users
  exact List.take_left users [body]

/-- C2: when the parsed id matches no record, the get-by-id handler sends
exactly one response, the 404 error, and never a success response for the
same request: the response trace is the single 404 element and contains no
status-200 entry. -/
theorem get_not_found_single_response (users : List Obj) (idStr : String)
    (h : users.find? (fun x => idMatches x (parseIntJS idStr)) = none) :
    getUserByIdTrace users idStr = [⟨404, errBody "User not found"⟩] ∧
    (getUserByIdTrace users idStr).length = 1 ∧
    ∀ r ∈ getUserByIdTrace users idStr, r.status ≠ 200 := by
  have ht : getUserByIdTrace users idStr
      = [⟨404, errBody "User not found"⟩] := by
    unfold getUserByIdTrace
    rw [h]
  refine ⟨ht, by rw [ht]; rfl, ?_⟩
  intro r hr
  rw [ht] at hr
  have : r = ⟨404, errBody "User not found"⟩ := by simpa using hr
  rw [this]
  decide

/-- C2 witness: on the seeded directory a lookup of id 999 yields the
single 404 response. -/
theorem get_not_found_single_response_witness :
    getUserByIdTrace initialUsers "999"
      = [⟨404, errBody "User not found"⟩] :=
  (get_not_found_single_response initialUsers "999" (by decide)).1

/-- C3: get-by-id parses the path id as an integer where non-numeric input
gives the NaN sentinel matching no record; when some record has the parsed
id, the first such record is returned with status 200, otherwise the 404
error object is returned. -/
theorem get_by_id_spec (users : List Obj) (idStr : String) :
    (parseIntJS idStr = none →
      getUserById users idStr = ⟨404, errBody "User not found"⟩) ∧
    ((∀ u ∈ users, idMatches u (parseIntJS idStr) = false) →
      getUserById users idStr = ⟨404, errBody "User not found"⟩) ∧
    ((∃ u ∈ users, idMatches u (parseIntJS idStr) = true) →
      ∃ l1 u l2, users = l1 ++ u :: l2 ∧
        (∀ x ∈ l1, idMatches x (parseIntJS idStr) = false) ∧
        idMatches u (parseIntJS idStr) = true ∧
        getUserById users idStr = ⟨200, ResBody.jsonObj u⟩) := by
  refine ⟨?_, ?_, ?_⟩
  · intro hnan
    apply getUserById_eq_not_found
    apply find?_none_of_all
    intro x hx
    rw [hnan]
    exact idMatches_nan x
  · intro hall
    exact getUserById_eq_not_found users idStr (find?_none_of_all _ _ hall)
  · intro hex
    cases hf : users.find? (fun x => idMatches x (parseIntJS idStr)) with
    | none =>
        obtain ⟨u, hu, hm⟩ := hex
        have hcontra := (List.find?_eq_none.mp hf) u hu
        rw [hm] at hcontra
        exact absurd rfl hcontra
    | some w =>
        obtain ⟨l1, l2, heq, hl1, hw⟩ := find?_decomp _ _ _ hf
        exact ⟨l1, w, l2, heq, hl1, hw,
          getUserById_eq_found users idStr w hf⟩

/-- C3 witness: on the seeded directory, id 1 finds the seeded record
first, id 999 finds nothing, and the non-numeric id "abc" parses to the
NaN sentinel and finds nothing. -/
theorem get_by_id_spec_witness :
    (∃ l1 u l2, initialUsers = l1 ++ u :: l2 ∧
      (∀ x ∈ l1, idMatches x (parseIntJS "1") = false) ∧
      idMatches u (parseIntJS "1") = true ∧
      getUserById initialUsers "1" = ⟨200, ResBody.jsonObj u⟩) ∧
    getUserById initialUsers "999" = ⟨404, errBody "User not found"⟩ ∧
    getUserById initialUsers "abc" = ⟨404, errBody "User not found"⟩ :=
  ⟨(get_by_id_spec initialUsers "1").2.2 ⟨johnDoe, by decide, by decide⟩,
   (get_by_id_spec initialUsers "999").2.1 (by decide),
   (get_by_id_spec initialUsers "abc").1 (by decide)⟩

/-- C6: an update that fails, whether with 404 (no matching record) or
with 400 (name change rejected), leaves the directory entirely
unchanged. -/
theorem put_failure_leaves_directory (users : List Obj) (idStr : String)
    (body : Obj)
    (h : (putUser users idStr body).1.status = 404 ∨
      (putUser users idStr body).1.status = 400) :
    (putUser users idStr body).2 = users := by
  cases hf : users.find? (fun x => idMatches x (parseIntJS idStr)) with
  | none => rw [putUser_eq_not_found users idStr body hf]
  | some u =>
      cases hv : nameViolation u body with
      | true => rw [putUser_eq_violation users idStr body u hf hv]
      | false =>
          rw [putUser_eq_merge users idStr body u hf hv] at h
          rcases h with h | h <;> simp at h

/-- C6 witness: a 404 update on missing id 999 and a 400 update changing
the seeded name both leave the seeded directory as it was. -/
theorem put_failure_leaves_directory_witness :
    (putUser initialUsers "999" [("age", Value.vNum 31)]).2 = initialUsers ∧
    (putUser initialUsers "1"
      [("name", Value.vStr "Someone Else")]).2 = initialUsers :=
  ⟨put_failure_leaves_directory initialUsers "999" [("age", Value.vNum 31)]
      (Or.inl (by decide)),
   put_failure_leaves_directory initialUsers "1"
      [("name", Value.vStr "Someone Else")] (Or.inr (by decide))⟩

/-- C5: a successful update merges every field of the body into the
matched record as a shallow overwrite, leaves fields absent from the body
untouched, returns the updated record with status 200, and changes no
directory entry other than the matched one (the directory after the
request is the old prefix, the merged record, and the old suffix). -/
theorem put_merge_spec (users : List Obj) (idStr : String) (body : Obj)
    (u : Obj)
    (hfind : users.find? (fun x => idMatches x (parseIntJS idStr)) = some u)
    (hnv : nameViolation u body = false)
    (hnd : (body.map Prod.fst).Nodup) :
    (putUser users idStr body).1
      = ⟨200, ResBody.jsonObj (assign u body)⟩ ∧
    (∀ k v, getField body k = some v →
      getField (assign u body) k = some v) ∧
    (∀ k, getField body k = none →
      getField (assign u body) k = getField u k) ∧
    ∃ l1 l2, users = l1 ++ u :: l2 ∧
      (∀ x ∈ l1, idMatches x (parseIntJS idStr) = false) ∧
      (putUser users idStr body).2 = l1 ++ assign u body :: l2 := by
  obtain ⟨l1, l2, heq, hl1, hu⟩ := find?_decomp _ _ _ hfind
  refine ⟨?_, fun k v hk => getField_assign_mem u body k v hnd hk,
    fun k hk => getField_assign_none u body k hk, l1, l2, heq, hl1, ?_⟩
  · rw [putUser_eq_merge users idStr body u hfind hnv]
  · rw [putUser_eq_merge users idStr body u hfind hnv]
    show updateFirst users _ _ = _
    rw [heq]
    exact updateFirst_append l1 l2 _ _ u hl1 hu

/-- C5 witness: updating age to 31 on the seeded record keeps the name and
yields the merged record with status 200, the directory holding exactly
the merged record. -/
theorem put_merge_spec_witness :
    (putUser initialUsers "1" [("age", Value.vNum 31)]).1
      = ⟨200, ResBody.jsonObj (assign johnDoe [("age", Value.vNum 31)])⟩ ∧
    getField (assign johnDoe [("age", Value.vNum 31)]) "age"
      = some (Value.vNum 31) ∧
    getField (assign johnDoe [("age", Value.vNum 31)]) "name"
      = getField johnDoe "name" :=
  have h := put_merge_spec initialUsers "1" [("age", Value.vNum 31)] johnDoe
    (by decide) (by decide) (by decide)
  ⟨h.1, h.2.1 "age" (Value.vNum 31) (by decide), h.2.2.1 "name" (by decide)⟩

/-- C1 counterexample: the body consisting of the name field set to the
empty string differs from the stored name "John Doe" of the matched
record, yet the update is not rejected: it answers with status 200 and the
stored name becomes the empty string. -/
theorem put_name_change_counterexample :
    getField [("name", Value.vStr "")] "name" ≠ getField johnDoe "name" ∧
    (putUser initialUsers "1" [("name", Value.vStr "")]).1.status = 200 ∧
    (putUser initialUsers "1" [("name", Value.vStr "")]).2
      = [[("id", Value.vNum 1), ("name", Value.vStr ""),
          ("age", Value.vNum 30), ("weight", Value.vNum 75),
          ("height", Value.vNum 180)]] := by
  decide

/-- C1 (amended): for every update request whose path id matches an
existing record and whose body includes a truthy name value that differs
from the stored name of that record, the update returns the 400 error
object and leaves the directory, hence the stored name, unchanged. -/
theorem put_name_change_rejected (users : List Obj) (idStr : String)
    (body : Obj) (u : Obj) (v : Value)
    (hfind : users.find? (fun x => idMatches x (parseIntJS idStr)) = some u)
    (hname : getField body "name" = some v)
    (htruthy : truthy v = true)
    (hdiff : strictEqOpt (some v) (getField u "name") = false) :
    putUser users idStr body
      = (⟨400, errBody "User name cannot be changed"⟩, users) := by
  have hv : nameViolation u body = true := by
    unfold nameViolation
    rw [hname]
    show (truthy v && !strictEqOpt (some v) (getField u "name")) = true
    rw [htruthy, hdiff]
    rfl
  exact putUser_eq_violation users idStr body u hfind hv

/-- C1 witness: changing the seeded name to "Someone Else" is rejected
with the 400 error and the seeded directory is untouched. -/
theorem put_name_change_rejected_witness :
    putUser initialUsers "1" [("name", Value.vStr "Someone Else")]
      = (⟨400, errBody "User name cannot be changed"⟩, initialUsers) :=
  put_name_change_rejected initialUsers "1"
    [("name", Value.vStr "Someone Else")] johnDoe
    (Value.vStr "Someone Else") (by decide) (by decide) (by decide)
    (by decide)

/-- C9: with a matched record, the update answers 400 exactly when the
body carries a truthy name value that is not strictly equal to the stored
name; consequently a falsy name value such as the empty string is not
rejected and the merge overwrites the stored name with it, so the
name-immutability invariant can be violated through the update
operation. -/
theorem put_name_guard_truthiness (users : List Obj) (idStr : String)
    (body : Obj) (u : Obj)
    (hfind : users.find? (fun x => idMatches x (parseIntJS idStr)) = some u) :
    ((putUser users idStr body).1.status = 400 ↔
      ∃ v, getField body "name" = some v ∧ truthy v = true ∧
        strictEqOpt (some v) (getField u "name") = false) ∧
    (∀ v, getField body "name" = some v → truthy v = false →
      (body.map Prod.fst).Nodup →
      (putUser users idStr body).1.status = 200 ∧
      getField (assign u body) "name" = some v ∧
      ∃ l1 l2, users = l1 ++ u :: l2 ∧
        (putUser users idStr body).2 = l1 ++ assign u body :: l2) := by
  have hviff : nameViolation u body = true ↔
      ∃ v, getField body "name" = some v ∧ truthy v = true ∧
        strictEqOpt (some v) (getField u "name") = false := by
    unfold nameViolation
    cases hg : getField body "name" with
    | none => simp
    | some w =>
        simp only [Bool.and_eq_true, Bool.not_eq_eq_eq_not, Bool.not_true,
          Option.some.injEq]
        constructor
        · intro hw
          exact ⟨w, rfl, hw.1, hw.2⟩
        · rintro ⟨v, hv, h1, h2⟩
          subst hv
          exact ⟨h1, h2⟩
  constructor
  · constructor
    · intro h400
      cases hv : nameViolation u body with
      | true => exact hviff.mp hv
      | false =>
          rw [putUser_eq_merge users idStr body u hfind hv] at h400
          simp at h400
    · intro hex
      rw [putUser_eq_violation users idStr body u hfind (hviff.mpr hex)]
  · intro v hname htruthy hnd
    have hv : nameViolation u body = false := by
      unfold nameViolation
      rw [hname]
      show (truthy v && !strictEqOpt (some v) (getField u "name")) = false
      rw [htruthy]
      rfl
    obtain ⟨l1, l2, heq, hl1, hu⟩ := find?_decomp _ _ _ hfind
    refine ⟨?_, getField_assign_mem u body "name" v hnd hname,
      l1, l2, heq, ?_⟩
    · rw [putUser_eq_merge users idStr body u hfind hv]
    · rw [putUser_eq_merge users idStr body u hfind hv]
      show updateFirst users _ _ = _
      rw [heq]
      exact updateFirst_append l1 l2 _ _ u hl1 hu

/-- C9 witness: the empty-string name differs from "John Doe" yet the
update of the seeded record passes with status 200 and the merged record
carries the empty name. -/
theorem put_name_guard_truthiness_witness :
    (putUser initialUsers "1" [("name", Value.vStr "")]).1.status = 200 ∧
    getField (assign johnDoe [("name", Value.vStr "")]) "name"
      = some (Value.vStr "") :=
  have h := (put_name_guard_truthiness initialUsers "1"
    [("name", Value.vStr "")] johnDoe (by decide)).2
    (Value.vStr "") (by decide) (by decide) (by decide)
  ⟨h.1, h.2.1⟩

/-- C10: the update operation does not protect the id field: a body that
carries an id value is merged like any other field and overwrites the id
of the matched record; when the new id no longer strictly equals the path
id and no other record carries the path id, a subsequent get-by-id with
the original path id answers 404. -/
theorem put_id_overwrite (users : List Obj) (idStr : String) (body : Obj)
    (u : Obj) (w : Value)
    (hfind : users.find? (fun x => idMatches x (parseIntJS idStr)) = some u)
    (hnv : nameViolation u body = false)
    (hnd : (body.map Prod.fst).Nodup)
    (hw : getField body "id" = some w)
    (hmiss : ∀ n : Int, parseIntJS idStr = some n →
      strictEq w (Value.vNum n) = false)
    (hone : (users.filter
      (fun x => idMatches x (parseIntJS idStr))).length = 1) :
    (putUser users idStr body).1
      = ⟨200, ResBody.jsonObj (assign u body)⟩ ∧
    getField (assign u body) "id" = some w ∧
    getUserById (putUser users idStr body).2 idStr
      = ⟨404, errBody "User not found"⟩ := by
  obtain ⟨l1, l2, heq, hl1, hu⟩ := find?_decomp _ _ _ hfind
  have hwid : getField (assign u body) "id" = some w :=
    getField_assign_mem u body "id" w hnd hw
  have hmatch : idMatches (assign u body) (parseIntJS idStr) = false := by
    unfold idMatches
    rw [hwid]
    cases hp : parseIntJS idStr with
    | none => rfl
    | some n =>
        show strictEq w (Value.vNum n) = false
        exact hmiss n hp
  have hl2 : ∀ x ∈ l2, idMatches x (parseIntJS idStr) = false := by
    rw [heq] at hone
    exact (filter_one_tail l1 l2 _ u hu hone).2
  have hsnd : (putUser users idStr body).2 = l1 ++ assign u body :: l2 := by
    rw [putUser_eq_merge users idStr body u hfind hnv]
    show updateFirst users _ _ = _
    rw [heq]
    exact updateFirst_append l1 l2 _ _ u hl1 hu
  have hnone : (l1 ++ assign u body :: l2).find?
      (fun x => idMatches x (parseIntJS idStr)) = none := by
    apply find?_none_of_all
    intro x hx
    rcases List.mem_append.mp hx with hx | hx
    · exact hl1 x hx
    · rcases List.mem_cons.mp hx with hx | hx
      · rw [hx]
        exact hmatch
      · exact hl2 x hx
  refine ⟨?_, hwid, ?_⟩
  · rw [putUser_eq_merge users idStr body u hfind hnv]
  · rw [hsnd]
    exact getUserById_eq_not_found _ idStr hnone

/-- C10 witness: updating the seeded record through path id 1 with a body
setting id to 2 succeeds, the stored id becomes 2, and a get on path id 1
afterwards answers 404. -/
theorem put_id_overwrite_witness :
    (putUser initialUsers "1" [("id", Value.vNum 2)]).1
      = ⟨200, ResBody.jsonObj (assign johnDoe [("id", Value.vNum 2)])⟩ ∧
    getField (assign johnDoe [("id", Value.vNum 2)]) "id"
      = some (Value.vNum 2) ∧
    getUserById (putUser initialUsers "1" [("id", Value.vNum 2)]).2 "1"
      = ⟨404, errBody "User not found"⟩ :=
  put_id_overwrite initialUsers "1" [("id", Value.vNum 2)] johnDoe
    (Value.vNum 2) (by decide) (by decide) (by decide) (by decide)
    (fun n h => by
      have h1 : parseIntJS "1" = some 1 := by decide
      rw [h1] at h
      have h2 : (1 : Int) = n := Option.some.inj h
      rw [← h2]
      decide)
    (by decide)

/-- C8 counterexample: the update of the seeded record through path id 1
with body id 2 succeeds with status 200, but repeating the identical
update fails with 404, because the first application moved the stored id
away from the path id. -/
theorem put_idempotence_counterexample :
    (putUser initialUsers "1" [("id", Value.vNum 2)]).1.status = 200 ∧
    (putUser (putUser initialUsers "1" [("id", Value.vNum 2)]).2 "1"
      [("id", Value.vNum 2)]).1.status = 404 := by
  decide

/-- C8 (amended): a successful update is idempotent provided the body does
not move the id of the matched record away from the path id (its id field
is absent or equals the parsed path id): repeating the identical request
returns the same 200 response and leaves the directory exactly as after
the first application. -/
theorem put_idempotent_when_id_kept (users : List Obj) (idStr : String)
    (body : Obj) (u : Obj)
    (hfind : users.find? (fun x => idMatches x (parseIntJS idStr)) = some u)
    (hnv : nameViolation u body = false)
    (hnd : (body.map Prod.fst).Nodup)
    (hid : getField body "id" = none ∨
      ∃ n, getField body "id" = some (Value.vNum n) ∧
        parseIntJS idStr = some n) :
    (putUser users idStr body).1.status = 200 ∧
    putUser (putUser users idStr body).2 idStr body
      = putUser users idStr body := by
  obtain ⟨l1, l2, heq, hl1, hu⟩ := find?_decomp _ _ _ hfind
  have hfirst : putUser users idStr body
      = (⟨200, ResBody.jsonObj (assign u body)⟩,
         l1 ++ assign u body :: l2) := by
    rw [putUser_eq_merge users idStr body u hfind hnv]
    rw [Prod.mk.injEq]
    refine ⟨rfl, ?_⟩
    show updateFirst users _ _ = _
    rw [heq]
    exact updateFirst_append l1 l2 _ _ u hl1 hu
  have hmatch : idMatches (assign u body) (parseIntJS idStr) = true := by
    rcases hid with hid | ⟨n, hbn, hpn⟩
    · rw [idMatches_congr (assign u body) u (parseIntJS idStr)
        (getField_assign_none u body "id" hid)]
      exact hu
    · unfold idMatches
      rw [getField_assign_mem u body "id" (Value.vNum n) hnd hbn, hpn]
      show strictEq (Value.vNum n) (Value.vNum n) = true
      exact strictEq_refl (Value.vNum n)
  have hfind2 : (l1 ++ assign u body :: l2).find?
      (fun x => idMatches x (parseIntJS idStr)) = some (assign u body) :=
    find?_of_prefix l1 l2 _ (assign u body) hl1 hmatch
  have hnv2 : nameViolation (assign u body) body = false := by
    unfold nameViolation
    cases hg : getField body "name" with
    | none => rfl
    | some v =>
        show (truthy v
          && !strictEqOpt (some v) (getField (assign u body) "name")) = false
        rw [getField_assign_mem u body "name" v hnd hg]
        show (truthy v && !strictEq v v) = false
        rw [strictEq_refl v]
        simp
  have hidem : assign (assign u body) body = assign u body :=
    assign_idem u body hnd
  have hsecond : putUser (l1 ++ assign u body :: l2) idStr body
      = (⟨200, ResBody.jsonObj (assign u body)⟩,
         l1 ++ assign u body :: l2) := by
    rw [putUser_eq_merge (l1 ++ assign u body :: l2) idStr body
      (assign u body) hfind2 hnv2]
    rw [Prod.mk.injEq]
    refine ⟨by rw [hidem], ?_⟩
    rw [updateFirst_append l1 l2 _ _ (assign u body) hl1 hmatch, hidem]
  constructor
  · rw [hfirst]
  · rw [hfirst]
    show putUser (l1 ++ assign u body :: l2) idStr body = _
    rw [hsecond]

/-- C8 witness: updating age to 31 on the seeded record succeeds and
repeating the identical request gives the identical response and
directory. -/
theorem put_idempotent_when_id_kept_witness :
    (putUser initialUsers "1" [("age", Value.vNum 31)]).1.status = 200 ∧
    putUser (putUser initialUsers "1" [("age", Value.vNum 31)]).2 "1"
        [("age", Value.vNum 31)]
      = putUser initialUsers "1" [("age", Value.vNum 31)] :=
  put_idempotent_when_id_kept initialUsers "1" [("age", Value.vNum 31)]
    johnDoe (by decide) (by decide) (by decide) (Or.inl (by decide))

end HealthApi
